import Mathlib

/-!
Verification of the reactivity core of the `vue-source` repository
(`src/core/observer/{dep,watcher,index}.js`, provided as
`src/unnamed/part_002`, `part_003`, `part_001`).

Shallow embedding conventions:
* Watchers and Deps are identified by their numeric `id` (both uids are
  allocated by a monotone counter in the source, so ids are unique).
* A Dep's subscriber list `subs : Array<Watcher>` becomes `List Nat`
  (the watcher ids, in list order); the collection of all Deps' subscriber
  lists becomes a function `Nat → List Nat` from dep id to its `subs`.
* JavaScript `Set` fields (`depIds`, `newDepIds`) become `List Nat` used
  as finite sets (insertion is guarded by membership, so they stay nodup).
* `process.env.NODE_ENV !== 'production'` is the build-time development
  flag; the repository is a development build (it contains `debugger`
  statements and `console.log` calls in `defineReactive`), modelled by
  the constant `devBuild := true`.
-/

namespace VueCore

/-- Modelled from the spec: the shared util helper `remove(arr, item)`
(imported from `../util/index` by `dep.js` and `watcher.js`; its body is
not among the provided sources).  Per the spec a Watcher "unsubscribes"
from a Dep's subscriber set; the canonical helper looks up `indexOf(item)`
and splices out that single (first) occurrence, which is `List.erase`. -/
def removeItem (l : List Nat) (x : Nat) : List Nat :=
  l.erase x

/-- Build-time development flag: `process.env.NODE_ENV !== 'production'`.
This repository is a development build. -/
def devBuild : Bool := true

/-- The dependency-tracking fields of a Watcher
(`watcher.js`: `deps`, `newDeps`, `depIds`, `newDepIds`). -/
structure WatcherDeps where
  deps : List Nat
  newDeps : List Nat
  depIds : List Nat
  newDepIds : List Nat
deriving DecidableEq, Repr

/-- Source `Dep.addSub(sub)`: `this.subs.push(sub)` — append the watcher id to
the subscriber list of dep `d`. -/
def addSub (subs : Nat → List Nat) (d wid : Nat) : Nat → List Nat :=
  fun e => if e = d then subs e ++ [wid] else subs e

/-- Source `Dep.removeSub(sub)`: `remove(this.subs, sub)` — erase the watcher id
from the subscriber list of dep `d`. -/
def removeSub (wid : Nat) (subs : Nat → List Nat) (d : Nat) : Nat → List Nat :=
  fun e => if e = d then removeItem (subs e) wid else subs e

/-- Source `Watcher.addDep(dep)` for the watcher with id `wid`: if the dep id is
not in `newDepIds`, record it in `newDepIds`/`newDeps` and, if it is also
not in `depIds` (the previous pass), subscribe via `dep.addSub(this)`. -/
def addDep (wid : Nat) (s : WatcherDeps × (Nat → List Nat)) (d : Nat) :
    WatcherDeps × (Nat → List Nat) :=
  if d ∈ s.1.newDepIds then s
  else if d ∈ s.1.depIds then
    ({ s.1 with newDepIds := d :: s.1.newDepIds, newDeps := s.1.newDeps ++ [d] }, s.2)
  else
    ({ s.1 with newDepIds := d :: s.1.newDepIds, newDeps := s.1.newDeps ++ [d] },
      addSub s.2 d wid)

/-- Source `Watcher.cleanupDeps()`: walk `deps` from the last element down
(`while (i--)`), calling `removeSub` on every dep whose id is not in
`newDepIds`; then swap the double buffers: `depIds := newDepIds`,
`deps := newDeps`, and clear `newDepIds` / `newDeps`. -/
def cleanupDeps (wid : Nat) (s : WatcherDeps × (Nat → List Nat)) :
    WatcherDeps × (Nat → List Nat) :=
  let subs' := s.1.deps.reverse.foldl
    (fun sb d => if d ∈ s.1.newDepIds then sb else removeSub wid sb d) s.2
  ({ deps := s.1.newDeps, newDeps := [], depIds := s.1.newDepIds, newDepIds := [] }, subs')

/-- The dependency bookkeeping performed by one completed `Watcher.get()`:
executing the getter triggers `dep.depend()` → `Dep.target.addDep(this)`
once per reactive read (`reads` is the sequence of dep ids read, in
order, duplicates included), and the `finally` block runs
`this.cleanupDeps()`. -/
def watcherGetDeps (wid : Nat) (reads : List Nat)
    (s : WatcherDeps × (Nat → List Nat)) : WatcherDeps × (Nat → List Nat) :=
  cleanupDeps wid (reads.foldl (addDep wid) s)

/-- Well-formedness of a watcher's dependency state between evaluations:
the new-pass buffers are empty, `depIds` mirrors `deps`, `deps` is
duplicate-free, and the watcher id occurs in a dep's subscriber list
exactly when that dep is in `deps` (and then exactly once). -/
structure DepWF (wid : Nat) (w : WatcherDeps) (subs : Nat → List Nat) : Prop where
  newDeps_nil : w.newDeps = []
  newDepIds_nil : w.newDepIds = []
  idm : ∀ d, d ∈ w.depIds ↔ d ∈ w.deps
  cnt : ∀ d, (subs d).count wid = if d ∈ w.deps then 1 else 0
  nd : w.deps.Nodup

/-- Mid-evaluation invariant: the state reached from a well-formed state
`(w0, subs0)` after `addDep` has processed the reads `p`. -/
structure MidWF (wid : Nat) (w0 : WatcherDeps) (p : List Nat)
    (w : WatcherDeps) (subs : Nat → List Nat) : Prop where
  deps_eq : w.deps = w0.deps
  depIds_eq : w.depIds = w0.depIds
  nids : ∀ d, d ∈ w.newDepIds ↔ d ∈ p
  nds : ∀ d, d ∈ w.newDeps ↔ d ∈ p
  ndnd : w.newDeps.Nodup
  cnt : ∀ d, (subs d).count wid = if d ∈ w0.deps ∨ d ∈ p then 1 else 0

theorem midWF_init (wid : Nat) (w : WatcherDeps) (subs : Nat → List Nat)
    (h : DepWF wid w subs) : MidWF wid w [] w subs := by
  refine ⟨rfl, rfl, ?_, ?_, ?_, ?_⟩
  · intro d; rw [h.newDepIds_nil]
  · intro d; rw [h.newDeps_nil]
  · rw [h.newDeps_nil]; exact List.nodup_nil
  · intro d; rw [h.cnt d]; simp

theorem midWF_step (wid : Nat) (w0 : WatcherDeps)
    (p : List Nat) (w : WatcherDeps) (subs : Nat → List Nat)
    (hidm0 : ∀ d, d ∈ w0.depIds ↔ d ∈ w0.deps)
    (h : MidWF wid w0 p w subs) (d : Nat) :
    MidWF wid w0 (p ++ [d]) (addDep wid (w, subs) d).1 (addDep wid (w, subs) d).2 := by
  have hidm : ∀ e, e ∈ w.depIds ↔ e ∈ w0.deps := by
    intro e
    rw [h.depIds_eq]
    exact hidm0 e
  by_cases hmem : d ∈ w.newDepIds
  · have hdp : d ∈ p := (h.nids d).mp hmem
    simp only [addDep, hmem, if_true, ite_true, if_pos]
    refine ⟨h.deps_eq, h.depIds_eq, ?_, ?_, h.ndnd, ?_⟩
    · intro e; rw [h.nids e]
      simp only [List.mem_append, List.mem_singleton]
      exact ⟨Or.inl, fun he => he.elim id (fun hed => hed ▸ hdp)⟩
    · intro e; rw [h.nds e]
      simp only [List.mem_append, List.mem_singleton]
      exact ⟨Or.inl, fun he => he.elim id (fun hed => hed ▸ hdp)⟩
    · intro e; rw [h.cnt e]
      have hiff : (e ∈ w0.deps ∨ e ∈ p) ↔ (e ∈ w0.deps ∨ e ∈ p ++ [d]) := by
        simp only [List.mem_append, List.mem_singleton]
        constructor
        · tauto
        · rintro (he | he | rfl)
          · exact Or.inl he
          · exact Or.inr he
          · exact Or.inr hdp
      rw [if_congr hiff rfl rfl]
  · have hdp : d ∉ p := fun hc => hmem ((h.nids d).mpr hc)
    by_cases hold : d ∈ w.depIds
    · have holddeps : d ∈ w0.deps := (hidm d).mp hold
      simp only [addDep, hmem, hold, if_false, if_true, ite_false, ite_true]
      refine ⟨h.deps_eq, h.depIds_eq, ?_, ?_, ?_, ?_⟩
      · intro e
        simp only [List.mem_cons, List.mem_append, List.mem_singleton, h.nids e]
        tauto
      · intro e
        simp only [List.mem_append, List.mem_singleton, h.nds e]
      · refine List.Nodup.append h.ndnd (List.nodup_singleton d) ?_
        intro x hx hxd
        rw [List.mem_singleton] at hxd
        subst hxd
        exact hdp ((h.nds x).mp hx)
      · intro e; rw [h.cnt e]
        have hiff : (e ∈ w0.deps ∨ e ∈ p) ↔ (e ∈ w0.deps ∨ e ∈ p ++ [d]) := by
          simp only [List.mem_append, List.mem_singleton]
          constructor
          · tauto
          · rintro (he | he | rfl)
            · exact Or.inl he
            · exact Or.inr he
            · exact Or.inl holddeps
        rw [if_congr hiff rfl rfl]
    · have holddeps : d ∉ w0.deps := fun hc => hold ((hidm d).mpr hc)
      simp only [addDep, hmem, hold, if_false, ite_false]
      refine ⟨h.deps_eq, h.depIds_eq, ?_, ?_, ?_, ?_⟩
      · intro e
        simp only [List.mem_cons, List.mem_append, List.mem_singleton, h.nids e]
        tauto
      · intro e
        simp only [List.mem_append, List.mem_singleton, h.nds e]
      · refine List.Nodup.append h.ndnd (List.nodup_singleton d) ?_
        intro x hx hxd
        rw [List.mem_singleton] at hxd
        subst hxd
        exact hdp ((h.nds x).mp hx)
      · intro e
        by_cases hed : e = d
        · subst hed
          have hcnt := h.cnt e
          rw [if_neg (by tauto)] at hcnt
          simp only [addSub, if_pos rfl, List.count_append, ite_true]
          rw [hcnt]
          have : e ∈ e :: p → True := fun _ => trivial
          rw [if_pos (by simp : e ∈ w0.deps ∨ e ∈ p ++ [e])]
          simp
        · simp only [addSub, hed, if_false, ite_false]
          rw [h.cnt e]
          have hiff : (e ∈ w0.deps ∨ e ∈ p) ↔ (e ∈ w0.deps ∨ e ∈ p ++ [d]) := by
            simp only [List.mem_append, List.mem_singleton]
            tauto
          rw [if_congr hiff rfl rfl]

theorem midWF_fold (wid : Nat) (w0 : WatcherDeps) :
    ∀ (reads pre : List Nat) (w : WatcherDeps) (subs : Nat → List Nat),
      (∀ d, d ∈ w0.depIds ↔ d ∈ w0.deps) → MidWF wid w0 pre w subs →
      MidWF wid w0 (pre ++ reads)
        (reads.foldl (addDep wid) (w, subs)).1 (reads.foldl (addDep wid) (w, subs)).2 := by
  intro reads
  induction reads with
  | nil =>
    intro pre w subs _ h
    simpa using h
  | cons d rest ih =>
    intro pre w subs hidm h
    have hstep := midWF_step wid w0 pre w subs hidm h d
    have := ih (pre ++ [d]) (addDep wid (w, subs) d).1 (addDep wid (w, subs) d).2
      hidm hstep
    simpa [List.append_assoc] using this

/-- Pointwise description of the `removeSub` sweep in `cleanupDeps`: after
folding over a duplicate-free list `l` of dep ids, the subscriber list of
dep `d` has been erased exactly when `d ∈ l` and `d` fails the keep
predicate `P`. -/
theorem cleanup_fold_eq (wid : Nat) (P : Nat → Prop) [DecidablePred P] :
    ∀ (l : List Nat), l.Nodup → ∀ (sb : Nat → List Nat) (d : Nat),
      (l.foldl (fun s e => if P e then s else removeSub wid s e) sb) d =
        if d ∈ l ∧ ¬ P d then removeItem (sb d) wid else sb d := by
  intro l
  induction l with
  | nil =>
    intro _ sb d
    simp
  | cons a rest ih =>
    intro hnd sb d
    have hnd' : rest.Nodup := hnd.of_cons
    have hna : a ∉ rest := by
      intro hc
      exact (List.nodup_cons.mp hnd).1 hc
    simp only [List.foldl_cons]
    rw [ih hnd' _ d]
    by_cases hPa : P a
    · simp only [hPa, if_true, ite_true]
      by_cases hd : d ∈ rest ∧ ¬ P d
      · have : d ∈ a :: rest ∧ ¬ P d := ⟨List.mem_cons_of_mem a hd.1, hd.2⟩
        rw [if_pos hd, if_pos this]
      · rw [if_neg hd]
        have : ¬ (d ∈ a :: rest ∧ ¬ P d) := by
          intro hc
          rcases List.mem_cons.mp hc.1 with rfl | hm
          · exact hc.2 hPa
          · exact hd ⟨hm, hc.2⟩
        rw [if_neg this]
    · simp only [hPa, if_false, ite_false]
      by_cases hda : d = a
      · subst hda
        have hdr : d ∉ rest := hna
        rw [if_neg (by exact fun hc => hdr hc.1)]
        rw [if_pos ⟨List.mem_cons_self d rest, hPa⟩]
        simp [removeSub]
      · have hsb : removeSub wid sb a d = sb d := by
          simp [removeSub, hda]
        by_cases hd : d ∈ rest ∧ ¬ P d
        · rw [if_pos hd, if_pos ⟨List.mem_cons_of_mem a hd.1, hd.2⟩, hsb]
        · rw [if_neg hd, hsb]
          have : ¬ (d ∈ a :: rest ∧ ¬ P d) := by
            intro hc
            rcases List.mem_cons.mp hc.1 with rfl | hm
            · exact hda rfl
            · exact hd ⟨hm, hc.2⟩
          rw [if_neg this]

/-- One completed evaluation, starting from a well-formed state: the
resulting state is well-formed again, the watcher's `deps` holds exactly
the dep ids that were read, and the watcher id sits in a dep's subscriber
list exactly when (and then exactly once) the dep was read. -/
theorem watcherGetDeps_spec (wid : Nat) (w : WatcherDeps) (subs : Nat → List Nat)
    (reads : List Nat) (h : DepWF wid w subs) :
    DepWF wid (watcherGetDeps wid reads (w, subs)).1 (watcherGetDeps wid reads (w, subs)).2 ∧
    (∀ d, d ∈ (watcherGetDeps wid reads (w, subs)).1.deps ↔ d ∈ reads) ∧
    (∀ d, ((watcherGetDeps wid reads (w, subs)).2 d).count wid =
        if d ∈ reads then 1 else 0) := by
  have hmid := midWF_fold wid w reads [] w subs (fun d => h.idm d) (midWF_init wid w subs h)
  rw [List.nil_append] at hmid
  set m := reads.foldl (addDep wid) (w, subs) with hm
  have hdeps : m.1.deps = w.deps := hmid.deps_eq
  have hcnt' : ∀ d,
      ((watcherGetDeps wid reads (w, subs)).2 d).count wid = if d ∈ reads then 1 else 0 := by
    intro d
    show ((cleanupDeps wid m).2 d).count wid = _
    have hrv : (m.1.deps.reverse).Nodup := by
      rw [hdeps]
      exact List.nodup_reverse.mpr h.nd
    have := cleanup_fold_eq wid (fun e => e ∈ m.1.newDepIds) m.1.deps.reverse hrv m.2 d
    simp only [cleanupDeps]
    rw [this]
    by_cases hdel : d ∈ m.1.deps.reverse ∧ ¬ d ∈ m.1.newDepIds
    · rw [if_pos hdel]
      have hdw : d ∈ w.deps := by
        have := hdel.1
        rw [List.mem_reverse, hdeps] at this
        exact this
      have hdr : d ∉ reads := fun hc => hdel.2 ((hmid.nids d).mpr hc)
      have h1 : (m.2 d).count wid = 1 := by
        rw [hmid.cnt d, if_pos (Or.inl hdw)]
      rw [if_neg hdr]
      simp only [removeItem]
      rw [List.count_erase_self, h1]
    · rw [if_neg hdel]
      rw [hmid.cnt d]
      by_cases hdr : d ∈ reads
      · rw [if_pos (Or.inr hdr), if_pos hdr]
      · rw [if_neg hdr]
        have hdw : d ∉ w.deps := by
          intro hc
          exact hdel ⟨by rw [List.mem_reverse, hdeps]; exact hc,
            fun hn => hdr ((hmid.nids d).mp hn)⟩
        rw [if_neg (by tauto)]
  refine ⟨?_, ?_, hcnt'⟩
  · refine ⟨rfl, rfl, ?_, ?_, ?_⟩
    · intro d
      show d ∈ m.1.newDepIds ↔ d ∈ m.1.newDeps
      rw [hmid.nids d, hmid.nds d]
    · intro d
      have := hcnt' d
      simpa [watcherGetDeps, cleanupDeps, hmid.nds d] using this
    · show m.1.newDeps.Nodup
      exact hmid.ndnd
  · intro d
    show d ∈ m.1.newDeps ↔ d ∈ reads
    exact hmid.nds d

/-! ### `Dep.notify()` (`dep.js` lines 44–56)

`notify` first takes `const subs = this.subs.slice()` (a snapshot copy),
then — only when `process.env.NODE_ENV !== 'production' && !config.async` —
sorts the copy with `(a, b) => a.id - b.id` (ascending by watcher id;
ids are unique), then invokes `subs[i].update()` in order over the copy.
Subscribers are represented by their ids, so the sort comparator becomes
`≤` on `Nat`. -/

/-- The order in which `Dep.notify()` invokes `update()` on the snapshot
of the subscriber list: sorted ascending by id when the build is a dev
build and `config.async` is false, otherwise the snapshot order itself. -/
def notifyOrder (async : Bool) (subs : List Nat) : List Nat :=
  if devBuild && !async then List.insertionSort (· ≤ ·) subs else subs

/-- State threaded through one `notify` pass: the Dep's live subscriber
list (which a subscriber's `update()` may mutate mid-pass) and the trace
of watcher ids whose `update()` has been invoked, in invocation order. -/
structure NotifySt where
  subs : List Nat
  called : List Nat
deriving DecidableEq, Repr

/-- One full `Dep.notify()` pass: iterate over the snapshot taken (and
possibly sorted) at entry, invoking each subscriber's `update()`;
`effect i` is the arbitrary mutation that watcher `i`'s `update()`
performs on this Dep's live subscriber list. -/
def notifyRun (async : Bool) (effect : Nat → List Nat → List Nat) (st : NotifySt) : NotifySt :=
  (notifyOrder async st.subs).foldl
    (fun s i => { subs := effect i s.subs, called := s.called ++ [i] }) st

theorem notifyRun_called_aux (effect : Nat → List Nat → List Nat) :
    ∀ (l : List Nat) (st : NotifySt),
      (l.foldl (fun s i => { subs := effect i s.subs, called := s.called ++ [i] }) st).called =
        st.called ++ l := by
  intro l
  induction l with
  | nil => intro st; simp
  | cons a rest ih =>
    intro st
    simp only [List.foldl_cons]
    rw [ih]
    simp

/-- Claim C5: `Dep.notify()` iterates over a snapshot of the subscriber
list, so the sequence of `update()` invocations is exactly the snapshot
order and is unaffected by any mutation a subscriber performs on the live
list mid-pass; and whenever the engine is not in batched (`async`) mode,
that order is ascending by watcher id and is a permutation of the
subscriber list at entry. -/
theorem dep_notify_snapshot_and_sort (async : Bool)
    (effect : Nat → List Nat → List Nat) (st : NotifySt) :
    (notifyRun async effect st).called = st.called ++ notifyOrder async st.subs ∧
    (∀ effect' : Nat → List Nat → List Nat,
      (notifyRun async effect' st).called = (notifyRun async effect st).called) ∧
    (async = false →
      (notifyOrder async st.subs).Sorted (· ≤ ·) ∧ List.Perm (notifyOrder async st.subs) st.subs) := by
  refine ⟨notifyRun_called_aux effect _ st, ?_, ?_⟩
  · intro effect'
    unfold notifyRun
    rw [notifyRun_called_aux effect' _ st, notifyRun_called_aux effect _ st]
  · intro hasync
    subst hasync
    constructor
    · simp only [notifyOrder, devBuild, Bool.not_false, Bool.and_self, if_true, ite_true]
      exact List.sorted_insertionSort (· ≤ ·) st.subs
    · simp only [notifyOrder, devBuild, Bool.not_false, Bool.and_self, if_true, ite_true]
      exact List.perm_insertionSort (· ≤ ·) st.subs

/-- Claim C5 witness. -/
theorem dep_notify_snapshot_and_sort_witness :
    (notifyRun false (fun _ _ => []) ⟨[2, 1], []⟩).called = [] ++ notifyOrder false [2, 1] ∧
    (notifyOrder false ([2, 1] : List Nat)).Sorted (· ≤ ·) := by
  refine ⟨(dep_notify_snapshot_and_sort false (fun _ _ => []) ⟨[2, 1], []⟩).1, ?_⟩
  exact ((dep_notify_snapshot_and_sort false (fun _ _ => []) ⟨[2, 1], []⟩).2.2 rfl).1

/-- Claim C1: after a completed evaluation (`Watcher.get`, which ends in
`cleanupDeps`), the watcher's `deps` is exactly the set of dep ids whose
`depend()` was reached during that evaluation; after a second evaluation
under a flipped branch (reads `r2` instead of `r1`), the watcher has been
removed from every dep of the first pass that the second pass did not
touch, so a `notify()` on such a dep no longer reaches the watcher's
`update()`, while a `notify()` on a dep of the new pass does. -/
theorem watcher_deps_exact_after_eval (wid : Nat) (w : WatcherDeps)
    (subs : Nat → List Nat) (r1 r2 : List Nat) (async : Bool)
    (h : DepWF wid w subs) :
    (∀ d, d ∈ (watcherGetDeps wid r1 (w, subs)).1.deps ↔ d ∈ r1) ∧
    (∀ d, d ∈ (watcherGetDeps wid r2 (watcherGetDeps wid r1 (w, subs))).1.deps ↔ d ∈ r2) ∧
    (∀ d, d ∈ r1 → d ∉ r2 →
      wid ∉ (watcherGetDeps wid r2 (watcherGetDeps wid r1 (w, subs))).2 d ∧
      wid ∉ notifyOrder async ((watcherGetDeps wid r2 (watcherGetDeps wid r1 (w, subs))).2 d)) ∧
    (∀ d, d ∈ r2 →
      wid ∈ notifyOrder async ((watcherGetDeps wid r2 (watcherGetDeps wid r1 (w, subs))).2 d)) := by
  obtain ⟨h1wf, h1deps, _⟩ := watcherGetDeps_spec wid w subs r1 h
  obtain ⟨_, h2deps, h2cnt⟩ :=
    watcherGetDeps_spec wid (watcherGetDeps wid r1 (w, subs)).1
      (watcherGetDeps wid r1 (w, subs)).2 r2 h1wf
  rw [Prod.mk.eta] at h2deps h2cnt
  have hmem : ∀ d, wid ∈ (watcherGetDeps wid r2 (watcherGetDeps wid r1 (w, subs))).2 d ↔
      d ∈ r2 := by
    intro d
    have hc := h2cnt d
    constructor
    · intro hin
      by_contra hdr
      rw [if_neg hdr] at hc
      have := List.count_pos_iff.mpr hin
      omega
    · intro hdr
      rw [if_pos hdr] at hc
      have : 0 < ((watcherGetDeps wid r2 (watcherGetDeps wid r1 (w, subs))).2 d).count wid := by
        omega
      exact List.count_pos_iff.mp this
  have hnotif : ∀ d, wid ∈
      notifyOrder async ((watcherGetDeps wid r2 (watcherGetDeps wid r1 (w, subs))).2 d) ↔
      wid ∈ (watcherGetDeps wid r2 (watcherGetDeps wid r1 (w, subs))).2 d := by
    intro d
    unfold notifyOrder
    by_cases hb : devBuild && !async
    · rw [if_pos hb]
      exact (List.perm_insertionSort (· ≤ ·) _).mem_iff
    · rw [if_neg hb]
  refine ⟨h1deps, h2deps, ?_, ?_⟩
  · intro d _ hd2
    refine ⟨fun hc => hd2 ((hmem d).mp hc), fun hc => hd2 ((hmem d).mp ((hnotif d).mp hc))⟩
  · intro d hd2
    exact (hnotif d).mpr ((hmem d).mpr hd2)

/-- Claim C1 witness: a fresh watcher (id 0) evaluates reading dep 1, then
re-evaluates under the flipped branch reading dep 2: dep 1 no longer
notifies it, dep 2 does. -/
theorem watcher_deps_exact_after_eval_witness :
    (2 ∈ (watcherGetDeps 0 [2] (watcherGetDeps 0 [1]
      (⟨[], [], [], []⟩, fun _ => []))).1.deps ↔ 2 ∈ [2]) ∧
    (0 ∉ notifyOrder false ((watcherGetDeps 0 [2] (watcherGetDeps 0 [1]
      (⟨[], [], [], []⟩, fun _ => []))).2 1)) ∧
    (0 ∈ notifyOrder false ((watcherGetDeps 0 [2] (watcherGetDeps 0 [1]
      (⟨[], [], [], []⟩, fun _ => []))).2 2)) := by
  have hwf : DepWF 0 ⟨[], [], [], []⟩ (fun _ => []) := by
    refine ⟨rfl, rfl, ?_, ?_, List.nodup_nil⟩
    · intro d; exact Iff.rfl
    · intro d; simp
  have h := watcher_deps_exact_after_eval 0 ⟨[], [], [], []⟩ (fun _ => []) [1] [2] false hwf
  refine ⟨h.2.1 2, (h.2.2.1 1 (by decide) (by decide)).2, h.2.2.2 2 (by decide)⟩

/-- Claim C4: across any sequence of completed evaluations followed by any
partial pass of further `addDep` calls, a watcher occurs in any dep's
subscriber list at most once — repeated reads of the same dep within one
pass or across passes never create a duplicate subscription. -/
theorem watcher_subscribed_at_most_once (wid : Nat) (w : WatcherDeps)
    (subs : Nat → List Nat) (h : DepWF wid w subs)
    (passes : List (List Nat)) (extraReads : List Nat) (d : Nat) :
    ((extraReads.foldl (addDep wid)
        (passes.foldl (fun s r => watcherGetDeps wid r s) (w, subs))).2 d).count wid ≤ 1 := by
  have hfold : ∀ (ps : List (List Nat)) (w' : WatcherDeps) (subs' : Nat → List Nat),
      DepWF wid w' subs' →
      DepWF wid (ps.foldl (fun s r => watcherGetDeps wid r s) (w', subs')).1
        (ps.foldl (fun s r => watcherGetDeps wid r s) (w', subs')).2 := by
    intro ps
    induction ps with
    | nil => intro w' subs' h'; simpa using h'
    | cons r rest ih =>
      intro w' subs' h'
      have hr := (watcherGetDeps_spec wid w' subs' r h').1
      simpa using ih _ _ hr
  have hbase := hfold passes w subs h
  set base := passes.foldl (fun s r => watcherGetDeps wid r s) (w, subs) with hb
  have hmid := midWF_fold wid base.1 extraReads [] base.1 base.2
    (fun e => hbase.idm e) (midWF_init wid base.1 base.2 hbase)
  rw [List.nil_append] at hmid
  have := hmid.cnt d
  rw [Prod.mk.eta] at this
  by_cases hc : d ∈ base.1.deps ∨ d ∈ extraReads
  · rw [if_pos hc] at this
    omega
  · rw [if_neg hc] at this
    omega

/-- Claim C4 witness: reading dep 5 three times in one pass after a pass
that already read it leaves a single subscription. -/
theorem watcher_subscribed_at_most_once_witness :
    (([5, 5, 5].foldl (addDep 0)
        ([[5]].foldl (fun s r => watcherGetDeps 0 r s)
          (⟨[], [], [], []⟩, fun _ => []))).2 5).count 0 ≤ 1 := by
  have hwf : DepWF 0 ⟨[], [], [], []⟩ (fun _ => []) := by
    refine ⟨rfl, rfl, ?_, ?_, List.nodup_nil⟩
    · intro d; exact Iff.rfl
    · intro d; simp
  exact watcher_subscribed_at_most_once 0 ⟨[], [], [], []⟩ (fun _ => []) hwf [[5]] [5, 5, 5] 5

/-! ### `Watcher.teardown()` (`watcher.js` lines 287–303) -/

/-- The state touched by `Watcher.teardown()`: the watcher's `deps` and
`active` flag, the global map from dep id to subscriber list, and the
owning vm's `_watchers` list together with its `_isBeingDestroyed` flag. -/
structure TeardownSt where
  deps : List Nat
  subs : Nat → List Nat
  active : Bool
  vmWatchers : List Nat
  vmBeingDestroyed : Bool

/-- Source `Watcher.teardown()` for the watcher with id `wid`: if `active`,
remove self from `vm._watchers` (skipped when the vm is being destroyed),
call `removeSub` on every dep in `deps` (walking from the last element
down, `while (i--)`), and clear `active`; otherwise do nothing. -/
def teardown (wid : Nat) (s : TeardownSt) : TeardownSt :=
  if s.active then
    { s with
      vmWatchers := if s.vmBeingDestroyed then s.vmWatchers else removeItem s.vmWatchers wid,
      subs := s.deps.reverse.foldl (fun sb d => removeSub wid sb d) s.subs,
      active := false }
  else s

/-- Pointwise description of the unguarded `removeSub` sweep in
`teardown`: over a duplicate-free list of dep ids, dep `d`'s subscriber
list is erased exactly when `d` is in the list. -/
theorem teardown_fold_eq (wid : Nat) :
    ∀ (l : List Nat), l.Nodup → ∀ (sb : Nat → List Nat) (d : Nat),
      (l.foldl (fun s e => removeSub wid s e) sb) d =
        if d ∈ l then removeItem (sb d) wid else sb d := by
  intro l
  induction l with
  | nil =>
    intro _ sb d
    simp
  | cons a rest ih =>
    intro hnd sb d
    have hna : a ∉ rest := (List.nodup_cons.mp hnd).1
    simp only [List.foldl_cons]
    rw [ih hnd.of_cons _ d]
    by_cases hda : d = a
    · subst hda
      rw [if_neg hna, if_pos (List.mem_cons_self d rest)]
      simp [removeSub]
    · have hsb : removeSub wid sb a d = sb d := by
        simp [removeSub, hda]
      by_cases hd : d ∈ rest
      · rw [if_pos hd, if_pos (List.mem_cons_of_mem a hd), hsb]
      · rw [if_neg hd, hsb, if_neg (by
          intro hc
          rcases List.mem_cons.mp hc with rfl | hm
          · exact hda rfl
          · exact hd hm)]

/-- Claim C8: `teardown()` is idempotent — a second call is a no-op
leaving every Dep subscriber list and the vm watcher list exactly as the
first call left them — and the first call (on an active watcher whose
subscriptions are well-formed) removes the watcher from every Dep
subscriber list it occurs in, removes it from the vm's `_watchers` list
unless the vm is being destroyed, and clears `active`. -/
theorem watcher_teardown_idempotent (wid : Nat) (s : TeardownSt)
    (hocc : ∀ d, wid ∈ s.subs d → d ∈ s.deps)
    (hcnt : ∀ d, (s.subs d).count wid ≤ 1)
    (hnd : s.deps.Nodup)
    (hvm : s.vmWatchers.count wid ≤ 1) :
    teardown wid (teardown wid s) = teardown wid s ∧
    (s.active = true →
      (∀ d, wid ∉ (teardown wid s).subs d) ∧
      (teardown wid s).active = false ∧
      (s.vmBeingDestroyed = false → wid ∉ (teardown wid s).vmWatchers)) := by
  constructor
  · by_cases ha : s.active
    · have : (teardown wid s).active = false := by
        simp [teardown, ha]
      conv_lhs => rw [teardown, if_neg (by rw [this]; exact Bool.false_ne_true)]
    · have hts : teardown wid s = s := by
        simp [teardown, ha]
      rw [hts, hts]
  · intro ha
    have hrv : s.deps.reverse.Nodup := List.nodup_reverse.mpr hnd
    refine ⟨?_, by simp [teardown, ha], ?_⟩
    · intro d
      have hsub : (teardown wid s).subs d =
          if d ∈ s.deps.reverse then removeItem (s.subs d) wid else s.subs d := by
        simp only [teardown, ha, if_true, ite_true]
        exact teardown_fold_eq wid s.deps.reverse hrv s.subs d
      rw [hsub]
      by_cases hd : d ∈ s.deps.reverse
      · rw [if_pos hd]
        intro hc
        have h2 : 2 ≤ (s.subs d).count wid := by
          have := List.count_pos_iff.mpr hc
          simp only [removeItem] at this
          rw [List.count_erase_self] at this
          omega
        exact absurd (hcnt d) (by omega)
      · rw [if_neg hd]
        intro hc
        exact hd (List.mem_reverse.mpr (hocc d hc))
    · intro hdes
      have : (teardown wid s).vmWatchers = removeItem s.vmWatchers wid := by
        simp [teardown, ha, hdes]
      rw [this]
      intro hc
      have := List.count_pos_iff.mpr hc
      simp only [removeItem] at this
      rw [List.count_erase_self] at this
      omega

/-- A concrete teardown state: watcher 3 is active, subscribed to deps 0
and 1, and listed in its vm's `_watchers`. -/
def td0 : TeardownSt where
  deps := [0, 1]
  subs := fun d => if d = 0 then [3] else if d = 1 then [3] else []
  active := true
  vmWatchers := [3]
  vmBeingDestroyed := false

/-- Claim C8 witness: an active watcher (id 3) subscribed to deps 0 and 1. -/
theorem watcher_teardown_idempotent_witness :
    teardown 3 (teardown 3 td0) = teardown 3 td0 ∧
    3 ∉ (teardown 3 td0).subs 0 ∧ (teardown 3 td0).active = false ∧
    3 ∉ (teardown 3 td0).vmWatchers := by
  have h := watcher_teardown_idempotent 3 td0
    (by
      intro d hd
      simp only [td0] at hd ⊢
      by_cases h0 : d = 0
      · subst h0; simp
      · by_cases h1 : d = 1
        · subst h1; simp
        · simp [h0, h1] at hd)
    (by
      intro d
      simp only [td0]
      by_cases h0 : d = 0
      · subst h0; simp
      · by_cases h1 : d = 1
        · subst h1; simp
        · simp [h0, h1])
    (by simp [td0])
    (by simp [td0])
  have h2 := h.2 rfl
  exact ⟨h.1, h2.1 0, h2.2.1, h2.2.2 rfl⟩

/-! ### `pushTarget` / `popTarget` (`dep.js` lines 62–77)

`Dep.target` is a nullable watcher reference and `targetStack` an array of
(possibly null) watcher references; both become `Option Nat` over watcher
ids. -/

/-- The global evaluation context: `targetStack` and `Dep.target`. -/
structure TargetSt where
  stack : List (Option Nat)
  target : Option Nat
deriving DecidableEq, Repr

/-- Source `pushTarget(target)`: `targetStack.push(target); Dep.target = target`. -/
def pushTarget (t : Option Nat) (s : TargetSt) : TargetSt :=
  { stack := s.stack ++ [t], target := t }

/-- Source `popTarget()`: `targetStack.pop(); Dep.target =
targetStack[targetStack.length - 1]` (which is `undefined`, i.e. `none`,
when the stack has emptied). -/
def popTarget (s : TargetSt) : TargetSt :=
  { stack := s.stack.dropLast, target := (s.stack.dropLast.getLast?).getD none }

/-- The sync invariant between the two globals: `Dep.target` is the top of
`targetStack` (or `none` when the stack is empty). -/
def TargetSync (s : TargetSt) : Prop :=
  s.target = (s.stack.getLast?).getD none

/-- The shape of one (possibly nested) `Watcher.get()` evaluation: the
watcher id that is pushed, the nested evaluations performed by its getter
(nested component renders), and whether the getter body throws.  The
`finally` block of `Watcher.get` runs `popTarget()` in every case, which
is why the `getterThrows` flag cannot influence the context transition. -/
inductive EvalTree : Type where
  | mk (wid : Nat) (inner : List EvalTree) (getterThrows : Bool) : EvalTree

mutual

/-- The effect of one `Watcher.get()` on the evaluation context:
`pushTarget(this)`, run the getter (performing the nested evaluations),
then — in the `finally` block, so also on a throw — `popTarget()`. -/
def runEval : EvalTree → TargetSt → TargetSt
  | EvalTree.mk wid inner _thr, s => popTarget (runEvalList inner (pushTarget (some wid) s))

/-- Sequential nested evaluations inside one getter body. -/
def runEvalList : List EvalTree → TargetSt → TargetSt
  | [], s => s
  | t :: ts, s => runEvalList ts (runEval t s)

end

theorem pushTarget_sync (t : Option Nat) (s : TargetSt) : TargetSync (pushTarget t s) := by
  simp [TargetSync, pushTarget]

theorem popTarget_pushTarget (t : Option Nat) (s : TargetSt) (h : TargetSync s) :
    popTarget (pushTarget t s) = s := by
  simp only [popTarget, pushTarget, List.dropLast_concat]
  cases s with
  | mk st tg =>
    simp only [TargetSync] at h
    simp [h]

mutual

theorem runEval_restores : ∀ (t : EvalTree) (s : TargetSt), TargetSync s → runEval t s = s
  | EvalTree.mk wid inner _thr, s, h => by
    rw [runEval, runEvalList_restores inner (pushTarget (some wid) s) (pushTarget_sync _ s),
      popTarget_pushTarget _ s h]

theorem runEvalList_restores :
    ∀ (ts : List EvalTree) (s : TargetSt), TargetSync s → runEvalList ts s = s
  | [], _, _ => rfl
  | t :: ts, s, h => by
    rw [runEvalList, runEval_restores t s h, runEvalList_restores ts s h]

end

/-- Claim C7: evaluation-context pushes and pops are strictly paired.
`popTarget` undoes `pushTarget` exactly (restoring `Dep.target` to the
watcher below on the stack); the pop is in a `finally` block, so the
context transition of an evaluation does not depend on whether its getter
throws; hence after any (possibly nested) evaluation fully unwinds, both
`targetStack` and `Dep.target` equal the values they had before. -/
theorem eval_context_strictly_paired (t : Option Nat) (s : TargetSt)
    (wid : Nat) (inner : List EvalTree) (tree : EvalTree) (h : TargetSync s) :
    popTarget (pushTarget t s) = s ∧
    runEval (EvalTree.mk wid inner true) s = runEval (EvalTree.mk wid inner false) s ∧
    runEval tree s = s := by
  exact ⟨popTarget_pushTarget t s h, rfl, runEval_restores tree s h⟩

/-- Claim C7 witness: a nested evaluation (watcher 1 rendering a child
component evaluated by watcher 2, whose getter throws) on top of an
outer target, fully unwinding to the initial context. -/
theorem eval_context_strictly_paired_witness :
    popTarget (pushTarget (some 7) ⟨[some 9], some 9⟩) = ⟨[some 9], some 9⟩ ∧
    runEval (EvalTree.mk 1 [EvalTree.mk 2 [] true] false) ⟨[some 9], some 9⟩ =
      ⟨[some 9], some 9⟩ := by
  have h := eval_context_strictly_paired (some 7) ⟨[some 9], some 9⟩ 1 []
    (EvalTree.mk 1 [EvalTree.mk 2 [] true] false) (by simp [TargetSync])
  exact ⟨h.1, h.2.2⟩

/-! ### JavaScript runtime values

JS values, as far as the reactivity core inspects them: primitives are
compared by value, objects (including arrays) by reference — represented
by a heap id.  JS numbers are IEEE doubles; the claims only distinguish
ordinary numbers (compared by value) from `NaN`, so numbers are modelled
as `Int` plus a separate `nan` constructor. -/

inductive JSVal : Type where
  | undef : JSVal
  | null : JSVal
  | boolv (b : Bool) : JSVal
  | int (n : Int) : JSVal
  | nan : JSVal
  | str (s : String) : JSVal
  | obj (o : Nat) : JSVal
deriving DecidableEq, Repr

/-- JavaScript strict equality `===`: same-type values compare by value
(objects by reference id); `NaN === x` and `x === NaN` are always false. -/
def strictEq : JSVal → JSVal → Bool
  | .undef, .undef => true
  | .null, .null => true
  | .boolv a, .boolv b => a == b
  | .int a, .int b => a == b
  | .str a, .str b => a == b
  | .obj a, .obj b => a == b
  | _, _ => false

theorem strictEq_self (v : JSVal) (h : v ≠ JSVal.nan) : strictEq v v = true := by
  cases v <;> simp_all [strictEq]

/-- JavaScript `x !== x`, the self-inequality test the reactive setter uses: true
exactly for `NaN`. -/
def selfNeq (v : JSVal) : Bool :=
  !(strictEq v v)

theorem selfNeq_iff_nan (v : JSVal) : selfNeq v = true ↔ v = JSVal.nan := by
  cases v <;> simp [selfNeq, strictEq]

/-- Modelled from the spec: the shared util `isObject(obj)` (imported from
`../util/index`, not among the provided sources) — "the value is itself a
container": `typeof obj === 'object' && obj !== null`. -/
def isObjectJS : JSVal → Bool
  | .obj _ => true
  | _ => false

/-! ### `Watcher.update()` (`watcher.js` lines 213–227) -/

/-- The state touched by `Watcher.update()`: the watcher's `dirty` flag,
the Scheduler's pending queue and its `has` membership set, and a counter
of synchronous `run()` invocations (standing for the immediate
re-evaluation a `sync` watcher performs on the calling stack). -/
structure UpdateSt where
  dirty : Bool
  queue : List Nat
  has : List Nat
  runs : Nat
deriving DecidableEq, Repr

/-- Modelled from the spec: `queueWatcher(w)` (`scheduler.js`, imported by
`watcher.js` but not among the provided sources).  Spec §4.4: "no-op if
`w.id` already pending. If no flush is in progress, append and schedule
exactly one asynchronous flush for the next tick"; the not-flushing case
is modelled (the deferred flush itself performs no synchronous work). -/
def queueWatcher (wid : Nat) (s : UpdateSt) : UpdateSt :=
  if wid ∈ s.has then s
  else { s with has := wid :: s.has, queue := s.queue ++ [wid] }

/-- Source `Watcher.update()`: `lazy` → `this.dirty = true`; else `sync` →
`this.run()` immediately on the calling stack; else `queueWatcher(this)`. -/
def watcherUpdate (lazy sync : Bool) (wid : Nat) (s : UpdateSt) : UpdateSt :=
  if lazy then { s with dirty := true }
  else if sync then { s with runs := s.runs + 1 }
  else queueWatcher wid s

/-- Claim C9: `update()` dispatches exactly by flags — a `lazy` watcher
only sets `dirty` (no evaluation, queue untouched); otherwise a `sync`
watcher runs immediately on the calling stack (queue untouched); otherwise
the watcher is handed to `queueWatcher` (ending up pending exactly once)
and no evaluation happens synchronously. -/
theorem watcher_update_dispatch (lazy sync : Bool) (wid : Nat) (s : UpdateSt) :
    (lazy = true → watcherUpdate lazy sync wid s =
      { s with dirty := true } ∧ (watcherUpdate lazy sync wid s).runs = s.runs) ∧
    (lazy = false → sync = true → watcherUpdate lazy sync wid s =
      { s with runs := s.runs + 1 } ∧ (watcherUpdate lazy sync wid s).dirty = s.dirty) ∧
    (lazy = false → sync = false →
      watcherUpdate lazy sync wid s = queueWatcher wid s ∧
      (watcherUpdate lazy sync wid s).runs = s.runs ∧
      (watcherUpdate lazy sync wid s).dirty = s.dirty ∧
      wid ∈ (watcherUpdate lazy sync wid s).has ∧
      ((s.queue.count wid = 0 ∧ wid ∉ s.has) →
        (watcherUpdate lazy sync wid s).queue.count wid = 1)) := by
  refine ⟨?_, ?_, ?_⟩
  · intro hl
    subst hl
    exact ⟨rfl, rfl⟩
  · intro hl hs
    subst hl
    subst hs
    exact ⟨rfl, rfl⟩
  · intro hl hs
    subst hl
    subst hs
    refine ⟨rfl, ?_, ?_, ?_, ?_⟩
    · simp only [watcherUpdate, Bool.false_eq_true, if_false, ite_false, queueWatcher]
      by_cases hh : wid ∈ s.has
      · rw [if_pos hh]
      · rw [if_neg hh]
    · simp only [watcherUpdate, Bool.false_eq_true, if_false, ite_false, queueWatcher]
      by_cases hh : wid ∈ s.has
      · rw [if_pos hh]
      · rw [if_neg hh]
    · simp only [watcherUpdate, Bool.false_eq_true, if_false, ite_false, queueWatcher]
      by_cases hh : wid ∈ s.has
      · rw [if_pos hh]; exact hh
      · rw [if_neg hh]; exact List.mem_cons_self wid s.has
    · rintro ⟨hq, hh⟩
      simp only [watcherUpdate, Bool.false_eq_true, if_false, ite_false, queueWatcher,
        if_neg hh]
      rw [List.count_append, hq]
      simp

/-- Claim C9 witness: a default (non-lazy, non-sync) watcher with id 4 and
an empty queue ends up pending exactly once with no synchronous run. -/
theorem watcher_update_dispatch_witness :
    watcherUpdate false false 4 ⟨false, [], [], 0⟩ = queueWatcher 4 ⟨false, [], [], 0⟩ ∧
    (watcherUpdate false false 4 ⟨false, [], [], 0⟩).runs = 0 ∧
    (watcherUpdate false false 4 ⟨false, [], [], 0⟩).queue.count 4 = 1 := by
  have h := (watcher_update_dispatch false false 4 ⟨false, [], [], 0⟩).2.2 rfl rfl
  exact ⟨h.1, h.2.1, h.2.2.2.2 ⟨by decide, by decide⟩⟩

/-! ### Error handling in `Watcher.get` / `Watcher.run`
(`watcher.js` lines 120–165 and 234–260)

Thrown JavaScript errors are modelled with `Except String`; a getter or
callback body is given by its outcome.  `handleError(e, vm, info)` calls
are recorded as the list of `info` labels passed to the error channel. -/

/-- The try/catch of `Watcher.get()`: on a getter throw, a user-defined
watcher reports `handleError(e, vm, `getter for watcher "expr"`)` and
falls through (returning the still-undefined `value`); a non-user watcher
rethrows.  (The `finally` bookkeeping — `popTarget`, `cleanupDeps` — is
modelled separately and runs in either case.) -/
def watcherGetTry (user : Bool) (expr : String) (gres : Except String JSVal) :
    Except String JSVal × List String :=
  match gres with
  | .ok v => (.ok v, [])
  | .error e =>
    if user then (.ok JSVal.undef, ["getter for watcher \"" ++ expr ++ "\""])
    else (.error e, [])

/-- Source `Watcher.run()`: if `active`, re-evaluate via `get()`; if the value
changed (`value !== this.value`), is an object, or the watcher is `deep`,
invoke the callback — wrapped in try/catch reporting
`callback for watcher "expr"` for a user-defined watcher, unguarded
otherwise. -/
def watcherRun (user active deep : Bool) (expr : String) (oldValue : JSVal)
    (gres : Except String JSVal) (cbres : JSVal → JSVal → Except String Unit) :
    Except String Unit × List String :=
  if active then
    match watcherGetTry user expr gres with
    | (.error e, hs) => (.error e, hs)
    | (.ok value, hs) =>
      if !(strictEq value oldValue) || isObjectJS value || deep then
        match cbres value oldValue with
        | .ok _ => (.ok (), hs)
        | .error e =>
          if user then (.ok (), hs ++ ["callback for watcher \"" ++ expr ++ "\""])
          else (.error e, hs)
      else (.ok (), hs)
  else (.ok (), [])

/-- Claim C6: a getter error propagates out of `Watcher.get` when the
watcher is not user-defined, but is caught and reported through the error
channel — with a label naming the watcher expression — when it is; and a
user-defined watcher's callback error inside `run()` is caught and
reported, not propagated. -/
theorem watcher_error_channel (expr e ecb : String) (oldValue : JSVal)
    (v : JSVal) (deep : Bool)
    (hchange : (!(strictEq v oldValue) || isObjectJS v || deep) = true) :
    (watcherGetTry false expr (.error e) = (.error e, [])) ∧
    (watcherGetTry true expr (.error e) =
      (.ok JSVal.undef, ["getter for watcher \"" ++ expr ++ "\""])) ∧
    (watcherRun true true deep expr oldValue (.ok v) (fun _ _ => .error ecb) =
      (.ok (), ["callback for watcher \"" ++ expr ++ "\""])) := by
  refine ⟨rfl, rfl, ?_⟩
  simp only [watcherRun, watcherGetTry, if_true, ite_true, hchange, List.nil_append]

/-- Claim C6 witness: getter throwing "boom" on watcher expression "a.b";
user callback throwing "cb" after a changed primitive value. -/
theorem watcher_error_channel_witness :
    (watcherGetTry false "a.b" (.error "boom") = (.error "boom", [])) ∧
    (watcherGetTry true "a.b" (.error "boom") =
      (.ok JSVal.undef, ["getter for watcher \"a.b\""])) ∧
    (watcherRun true true false "a.b" (JSVal.int 1) (.ok (JSVal.int 2))
      (fun _ _ => .error "cb") = (.ok (), ["callback for watcher \"a.b\""])) :=
  watcher_error_channel "a.b" "boom" "cb" (JSVal.int 1) (JSVal.int 2) false (by decide)

/-! ### `observe` / `defineReactive` setter (`observer/index.js`,
`part_001` lines 124–231)

The per-object attributes `observe` inspects are kept in a heap-indexed
metadata map; `observe`'s effect relevant to the setter is whether an
Observer ends up attached (`childOb` truthiness). -/

/-- The attributes of a heap object that `observe(value)` inspects. -/
structure ObjMeta where
  isVNode : Bool
  arrayOrPlainObject : Bool
  extensible : Bool
  isVue : Bool
  hasOb : Bool
deriving DecidableEq, Repr

/-- Source `observe(value)` (`part_001` lines 124–149), as the truthiness of its
result: `undefined` unless `value` is a non-VNode object; the existing
`__ob__` if present; otherwise a new Observer exactly when observation is
enabled, this is not server rendering, the value is an array or plain
object, it is extensible, and it is not a Vue instance. -/
def observeAttaches (shouldObserve isServer : Bool) (meta : Nat → ObjMeta) :
    JSVal → Bool
  | .obj o =>
    if (meta o).isVNode then false
    else if (meta o).hasOb then true
    else shouldObserve && !isServer && (meta o).arrayOrPlainObject &&
      (meta o).extensible && !(meta o).isVue
  | _ => false

/-- The observable state of one reactive property closure
(`defineReactive`): the captured `val` and `childOb`, plus counters for
`dep.notify()` calls, pre-existing-`setter` invocations and
`customSetter` invocations. -/
structure RProp where
  val : JSVal
  childOb : Bool
  notifies : Nat
  setterCalls : Nat
  customSetterCalls : Nat
deriving DecidableEq, Repr

/-- Source `reactiveSetter(newVal)` (`part_001` lines 206–229): read the current
value (through the pre-existing getter if any); return unchanged if the
new value is strictly equal or both are `NaN`
(`newVal === value || (newVal !== newVal && value !== value)`); invoke
`customSetter` in a dev build; return if the property had a getter but no
setter (#7981); otherwise store through the pre-existing setter or into
the closure `val`, recompute `childOb = !shallow && observe(newVal)`, and
call `dep.notify()`. -/
def reactiveSetter (hasGetter hasSetter shallow hasCustomSetter : Bool)
    (getterVal : JSVal) (shouldObserve isServer : Bool) (meta : Nat → ObjMeta)
    (newVal : JSVal) (p : RProp) : RProp :=
  let value := if hasGetter then getterVal else p.val
  if strictEq newVal value || (selfNeq newVal && selfNeq value) then p
  else
    let p1 := if devBuild && hasCustomSetter then
        { p with customSetterCalls := p.customSetterCalls + 1 } else p
    if hasGetter && !hasSetter then p1
    else
      let p2 := if hasSetter then { p1 with setterCalls := p1.setterCalls + 1 }
        else { p1 with val := newVal }
      { p2 with
        childOb := !shallow && observeAttaches shouldObserve isServer meta newVal,
        notifies := p2.notifies + 1 }

/-- Claim C2: for a data property without a pre-existing getter, an
assignment whose new value is strictly equal to the old (or with both old
and new not-a-number) stores nothing and never calls `dep.notify()`;
any other assignment stores the new value, re-observes it (it gets a
child Observer exactly when `observe` attaches one — never when it is not
an object), and calls `dep.notify()` exactly once. -/
theorem reactive_setter_store_and_notify
    (shallow hasCustomSetter shouldObserve isServer : Bool)
    (meta : Nat → ObjMeta) (getterVal newVal : JSVal) (p : RProp) :
    ((strictEq newVal p.val || (selfNeq newVal && selfNeq p.val)) = true →
      reactiveSetter false false shallow hasCustomSetter getterVal
        shouldObserve isServer meta newVal p = p) ∧
    ((strictEq newVal p.val || (selfNeq newVal && selfNeq p.val)) = false →
      (reactiveSetter false false shallow hasCustomSetter getterVal
        shouldObserve isServer meta newVal p).val = newVal ∧
      (reactiveSetter false false shallow hasCustomSetter getterVal
        shouldObserve isServer meta newVal p).notifies = p.notifies + 1 ∧
      (reactiveSetter false false shallow hasCustomSetter getterVal
        shouldObserve isServer meta newVal p).childOb =
        (!shallow && observeAttaches shouldObserve isServer meta newVal) ∧
      (isObjectJS newVal = false →
        (reactiveSetter false false shallow hasCustomSetter getterVal
          shouldObserve isServer meta newVal p).childOb = false)) := by
  constructor
  · intro heq
    simp only [reactiveSetter, Bool.false_eq_true, if_false, ite_false, heq, if_true, ite_true]
  · intro hne
    have hobj : isObjectJS newVal = false →
        observeAttaches shouldObserve isServer meta newVal = false := by
      intro h
      cases newVal <;> simp_all [isObjectJS, observeAttaches]
    cases hasCustomSetter <;>
      refine ⟨?_, ?_, ?_, ?_⟩ <;>
      simp [reactiveSetter, hne, devBuild, hobj] <;>
      exact fun h _ => hobj h

/-- Claim C2 witness: setting a plain tracked property from `NaN` to `NaN`
is a no-op; setting it from 1 to 2 stores and notifies once. -/
theorem reactive_setter_store_and_notify_witness :
    (reactiveSetter false false false false JSVal.undef true false (fun _ => ⟨false, false, false, false, false⟩)
      JSVal.nan ⟨JSVal.nan, false, 0, 0, 0⟩ = ⟨JSVal.nan, false, 0, 0, 0⟩) ∧
    ((reactiveSetter false false false false JSVal.undef true false (fun _ => ⟨false, false, false, false, false⟩)
      (JSVal.int 2) ⟨JSVal.int 1, false, 0, 0, 0⟩).val = JSVal.int 2 ∧
     (reactiveSetter false false false false JSVal.undef true false (fun _ => ⟨false, false, false, false, false⟩)
      (JSVal.int 2) ⟨JSVal.int 1, false, 0, 0, 0⟩).notifies = 0 + 1) := by
  have h1 := (reactive_setter_store_and_notify false false true false
    (fun _ => ⟨false, false, false, false, false⟩) JSVal.undef JSVal.nan
    ⟨JSVal.nan, false, 0, 0, 0⟩).1 (by decide)
  have h2 := (reactive_setter_store_and_notify false false true false
    (fun _ => ⟨false, false, false, false, false⟩) JSVal.undef (JSVal.int 2)
    ⟨JSVal.int 1, false, 0, 0, 0⟩).2 (by decide)
  exact ⟨h1, h2.1, h2.2.1⟩

/-- Claim C10: for a property that had an accessor getter but no setter
before `defineReactive`, any assignment of a different value is silently
dropped (#7981): the closure value, the child Observer and all counters
of stored/observed/notified effects are unchanged — the setter returns
before storing, before re-observing, and before `dep.notify()` (only the
dev-only `customSetter` warning, when one was supplied, runs first). -/
theorem reactive_setter_getter_without_setter_drops
    (shallow hasCustomSetter shouldObserve isServer : Bool)
    (meta : Nat → ObjMeta) (getterVal newVal : JSVal) (p : RProp)
    (hne : (strictEq newVal getterVal || (selfNeq newVal && selfNeq getterVal)) = false) :
    (reactiveSetter true false shallow hasCustomSetter getterVal
      shouldObserve isServer meta newVal p).val = p.val ∧
    (reactiveSetter true false shallow hasCustomSetter getterVal
      shouldObserve isServer meta newVal p).childOb = p.childOb ∧
    (reactiveSetter true false shallow hasCustomSetter getterVal
      shouldObserve isServer meta newVal p).notifies = p.notifies ∧
    (reactiveSetter true false shallow hasCustomSetter getterVal
      shouldObserve isServer meta newVal p).setterCalls = p.setterCalls ∧
    (hasCustomSetter = false →
      reactiveSetter true false shallow hasCustomSetter getterVal
        shouldObserve isServer meta newVal p = p) := by
  simp only [reactiveSetter, if_true, ite_true, hne, Bool.false_eq_true, if_false, ite_false]
  by_cases hcs : hasCustomSetter
  · simp [devBuild, hcs]
  · simp [devBuild, hcs]

/-- Claim C10 witness: a getter-only accessor property (current getter
value 1) assigned 2 — nothing stored, observed or notified. -/
theorem reactive_setter_getter_without_setter_drops_witness :
    (strictEq (JSVal.int 2) (JSVal.int 1) ||
      (selfNeq (JSVal.int 2) && selfNeq (JSVal.int 1))) = false ∧
    reactiveSetter true false false false (JSVal.int 1) true false
      (fun _ => ⟨false, false, false, false, false⟩) (JSVal.int 2)
      ⟨JSVal.int 1, false, 0, 0, 0⟩ = ⟨JSVal.int 1, false, 0, 0, 0⟩ :=
  ⟨by decide,
    (reactive_setter_getter_without_setter_drops false false true false
      (fun _ => ⟨false, false, false, false, false⟩) (JSVal.int 1) (JSVal.int 2)
      ⟨JSVal.int 1, false, 0, 0, 0⟩ (by decide)).2.2.2.2 rfl⟩

/-! ### `set(target, key, val)` (`observer/index.js`, `part_001` lines
238–279)

The target is a plain object or array (the dev warning for
undefined/primitive targets is outside all claims, so the model's domain
is object/array targets).  Plain objects inherit from `Object.prototype`
only, so JavaScript's `key in target && !(key in Object.prototype)` is
"key is an own field and not an `Object.prototype` member". -/

/-- A property key passed to `set`. Modelled from the spec: "numeric
list-index writes" — the util `isValidArrayIndex` (not among the provided
sources) accepts exactly the non-negative finite integer keys, which the
`idx` constructor represents; all other keys are `name` keys. -/
inductive SetKey : Type where
  | idx (n : Nat) : SetKey
  | name (s : String) : SetKey
deriving DecidableEq, Repr

/-- The string form of a key (JS property keys are strings). -/
def keyStr : SetKey → String
  | .idx n => toString n
  | .name s => s

/-- The own properties of `Object.prototype`. -/
def objectProtoMember (s : String) : Bool :=
  s ∈ ["constructor", "hasOwnProperty", "isPrototypeOf", "propertyIsEnumerable",
    "toLocaleString", "toString", "valueOf"]

/-- A `set` target: a plain object (own `fields`, the subset that is
reactive in `reactiveKeys`) or an array (`elems`), with its `_isVue`
flag, its `__ob__` (presence plus `vmCount`), a counter of
`ob.dep.notify()` calls, and the warnings reported so far. -/
structure SetTarget where
  isArray : Bool
  elems : List JSVal
  fields : List (String × JSVal)
  reactiveKeys : List String
  isVue : Bool
  hasOb : Bool
  vmCount : Nat
  obNotifies : Nat
  warnings : List String
deriving DecidableEq, Repr

/-- Plain store of an own property (`target[key] = val`). -/
def setAssoc (fields : List (String × JSVal)) (k : String) (v : JSVal) :
    List (String × JSVal) :=
  if fields.any (fun q => q.1 == k) then
    fields.map (fun q => if q.1 == k then (k, v) else q)
  else fields ++ [(k, v)]

/-- Source `target.length = Math.max(target.length, key)` followed by
`target.splice(key, 1, val)`: replace in place when the index is within
bounds, otherwise extend with undefined holes and append. -/
def arraySplice1 (elems : List JSVal) (n : Nat) (v : JSVal) : List JSVal :=
  if n < elems.length then elems.set n v
  else (elems ++ List.replicate (n - elems.length) JSVal.undef) ++ [v]

/-- The dev warning issued for runtime key addition on a Vue instance or
root `$data`. -/
def avoidAddWarning : String :=
  "Avoid adding reactive properties to a Vue instance or its root $data " ++
    "at runtime - declare it upfront in the data option."

/-- The object path of `set` (everything after the array branch):
`key in target && !(key in Object.prototype)` → plain store; Vue instance
or root `$data` (`target._isVue || (ob && ob.vmCount)`) → dev warning and
`return val` with no store; no `__ob__` → plain untracked store;
otherwise `defineReactive(ob.value, key, val)` and `ob.dep.notify()`. -/
def jsSetObj (t : SetTarget) (k : String) (v : JSVal) : SetTarget × JSVal :=
  if t.fields.any (fun q => q.1 == k) && !(objectProtoMember k) then
    ({ t with fields := setAssoc t.fields k v }, v)
  else if t.isVue || (t.hasOb && t.vmCount != 0) then
    ({ t with warnings := t.warnings ++ (if devBuild then [avoidAddWarning] else []) }, v)
  else if !t.hasOb then
    ({ t with fields := setAssoc t.fields k v }, v)
  else
    ({ t with
        fields := setAssoc t.fields k v,
        reactiveKeys := t.reactiveKeys ++ [k],
        obNotifies := t.obNotifies + 1 }, v)

/-- Source `set(target, key, val)`: the array branch
(`Array.isArray(target) && isValidArrayIndex(key)`) extends and splices —
the intercepted `splice` notifies the structural Dep (modelled from the
spec: the array-method interceptors of `array.js` are not among the
provided sources) — and every other case follows the object path. -/
def jsSet (t : SetTarget) (key : SetKey) (v : JSVal) : SetTarget × JSVal :=
  match key with
  | .idx n =>
    if t.isArray then
      ({ t with
          elems := arraySplice1 t.elems n v,
          obNotifies := t.obNotifies + (if t.hasOb then 1 else 0) }, v)
    else jsSetObj t (keyStr (.idx n)) v
  | .name s => jsSetObj t s v

/-- A concrete root `$data` object (`vmCount = 1`), with one reactive
field `a`, on which `set(target, "b", 2)` is attempted. -/
def rootData : SetTarget where
  isArray := false
  elems := []
  fields := [("a", JSVal.int 1)]
  reactiveKeys := ["a"]
  isVue := false
  hasOb := true
  vmCount := 1
  obNotifies := 0
  warnings := []

/-- Claim C3 counterexample: on a root `$data` target with `vmCount > 0`
and absent key `"b"`, `set` does NOT store the key/value on the target —
refuting "still performs the mutation untracked (the key/value is stored
on the target)"; the fields are completely unchanged (and nothing is made
reactive, nothing notified). -/
theorem set_root_data_no_mutation_counterexample :
    rootData.vmCount ≠ 0 ∧
    rootData.fields.any (fun q => q.1 == "b") = false ∧
    ¬ ((jsSet rootData (.name "b") (JSVal.int 2)).1.fields.any
        (fun q => q.1 == "b") = true) ∧
    (jsSet rootData (.name "b") (JSVal.int 2)).1.fields = rootData.fields ∧
    (jsSet rootData (.name "b") (JSVal.int 2)).1.reactiveKeys = rootData.reactiveKeys ∧
    (jsSet rootData (.name "b") (JSVal.int 2)).1.obNotifies = rootData.obNotifies := by
  refine ⟨by decide, by decide, ?_, ?_, ?_, ?_⟩ <;>
    simp [jsSet, jsSetObj, rootData, devBuild, objectProtoMember]

/-- Claim C3 (amended): when `set(target, key, value)` hits a Vue
instance or a root `$data` object (observer with `vmCount > 0`) and the
key is not already present, the call reports the usage warning and is
non-fatal — it returns the value — but performs NO mutation at all: the
only change to the target state is the recorded warning; the key is not
stored, nothing is made reactive and nothing is notified. -/
theorem set_root_data_warns_without_mutation (t : SetTarget) (k : String) (v : JSVal)
    (hroot : (t.isVue || (t.hasOb && t.vmCount != 0)) = true)
    (habsent : t.fields.any (fun q => q.1 == k) = false) :
    (jsSet t (.name k) v).1 =
      { t with warnings := t.warnings ++ [avoidAddWarning] } ∧
    (jsSet t (.name k) v).2 = v := by
  simp [jsSet, jsSetObj, habsent, hroot, devBuild]

/-- Claim C3 (amended) witness: the concrete root `$data` target. -/
theorem set_root_data_warns_without_mutation_witness :
    (jsSet rootData (.name "b") (JSVal.int 2)).1 =
      { rootData with warnings := [avoidAddWarning] } ∧
    (jsSet rootData (.name "b") (JSVal.int 2)).2 = JSVal.int 2 := by
  have h := set_root_data_warns_without_mutation rootData "b" (JSVal.int 2)
    (by decide) (by decide)
  exact ⟨h.1, h.2⟩

end VueCore
